import Mathlib

/-!
Verification of the Smart Mortgage Accelerator calculation engine.

The TypeScript sources are embedded shallowly:
* TS `number` arithmetic is modelled by exact rationals (`ℚ`);
* the `while` loop of `generateAmortizationSchedule` can genuinely diverge
  (its guard compares the calendar month counter, which is reset to `0`
  every twelve iterations, against the `2 × tenure` cap), so it is modelled
  with explicit fuel returning `Option`: `none` means the loop has not
  finished within the given fuel;
* the `while` loop of `calculateAdvancedMortgage` increments a monotone
  counter that is checked against its cap, so it runs at most
  `tenureMonths * 2` iterations; it is modelled with fuel initialised to
  exactly that cap, which makes the fuel-exhaustion branch coincide with
  the normal guard-failure exit;
* JS `Date` values are modelled as year/month/day triples with the
  normalisation rules of `new Date(y, m, d)` (month overflow moves into
  the year, day overflow rolls into following months).
-/

/-- Record for one simulated payment period, as in `PaymentRecord` of the
source (`month` is 1–12 within `year`, both derived from the running
period counter). -/
structure PaymentRecord where
  month : ℕ
  year : ℕ
  payment : ℚ
  principal : ℚ
  interest : ℚ
  balance : ℚ
deriving DecidableEq

/-- Function `calculateMonthlyEMI` from the core engine: the standard amortization
formula, special-cased to `principal / tenureMonths` at zero monthly
rate. -/
def calculateMonthlyEMI (principal annualRate : ℚ) (tenureMonths : ℕ) : ℚ :=
  let monthlyRate := annualRate / 12 / 100
  if monthlyRate = 0 then
    principal / tenureMonths
  else
    principal * (monthlyRate * (1 + monthlyRate) ^ tenureMonths) /
      ((1 + monthlyRate) ^ tenureMonths - 1)

/-- Function `calculateTotalInterestAndAmount` from the core engine. -/
def calculateTotalInterestAndAmount (principal monthlyEMI : ℚ) (tenureMonths : ℕ) :
    ℚ × ℚ :=
  let totalAmount := monthlyEMI * tenureMonths
  (totalAmount - principal, totalAmount)

/-- Loop body and guard of `generateAmortizationSchedule`.  State:
remaining `balance`, the resetting calendar `month` (0–11 away from the
start of an iteration) and `year`.  The guard is
`balance > 0 && month < tenureMonths * 2` exactly as in the source; `cap`
is `tenureMonths * 2`.  `none` means the loop did not finish within
`fuel` iterations. -/
def genGo (monthlyEMI monthlyRate monthlyOverpayment : ℚ) (cap : ℕ) :
    ℕ → ℚ → ℕ → ℕ → Option (List PaymentRecord)
  | 0, balance, month, _ =>
      if 0 < balance ∧ month < cap then none else some []
  | fuel + 1, balance, month, year =>
      if 0 < balance ∧ month < cap then
        let interestPayment := balance * monthlyRate
        let principalPayment0 := monthlyEMI - interestPayment + monthlyOverpayment
        let principalPayment :=
          if balance < principalPayment0 then balance else principalPayment0
        let totalPayment := interestPayment + principalPayment
        let newBalance := balance - principalPayment
        let record : PaymentRecord :=
          ⟨month + 1, year, totalPayment, principalPayment, interestPayment,
            max 0 newBalance⟩
        (genGo monthlyEMI monthlyRate monthlyOverpayment cap fuel newBalance
            (if month + 1 = 12 then 0 else month + 1)
            (if month + 1 = 12 then year + 1 else year)).map (record :: ·)
      else some []

/-- Function `generateAmortizationSchedule` from the core engine, with explicit
fuel for the (possibly divergent) `while` loop. -/
def generateAmortizationSchedule (principal annualRate : ℚ) (tenureMonths : ℕ)
    (monthlyOverpayment : ℚ) (fuel : ℕ) : Option (List PaymentRecord) :=
  genGo (calculateMonthlyEMI principal annualRate tenureMonths)
    (annualRate / 12 / 100) monthlyOverpayment (tenureMonths * 2)
    fuel principal 0 0

/-- If the loop guard fails, `genGo` exits immediately with the empty
schedule, for any fuel. -/
theorem genGo_stop (E r o : ℚ) (cap : ℕ) (fuel : ℕ) (b : ℚ) (m y : ℕ)
    (h : ¬(0 < b ∧ m < cap)) :
    genGo E r o cap fuel b m y = some [] := by
  cases fuel <;> simp [genGo, h]

/-- Exact balance after `k` unclamped payments of the annuity `E` at
monthly rate `r`, starting from principal `P`. -/
def closedBalance (P E r : ℚ) (k : ℕ) : ℚ :=
  P * (1 + r) ^ k - E * ((1 + r) ^ k - 1) / r

theorem closedBalance_zero (P E r : ℚ) : closedBalance P E r 0 = P := by
  simp [closedBalance]

theorem closedBalance_step (P E r : ℚ) (hr : r ≠ 0) (k : ℕ) :
    closedBalance P E r k * (1 + r) - E = closedBalance P E r (k + 1) := by
  simp only [closedBalance, pow_succ]
  field_simp
  ring

/-- For a positive rate the compounding factor strictly exceeds one. -/
theorem one_lt_onePlusRate_pow (r : ℚ) (hr : 0 < r) (n : ℕ) (hn : 0 < n) :
    1 < (1 + r) ^ n :=
  one_lt_pow₀ (by linarith) (Nat.pos_iff_ne_zero.mp hn)

/-- The standard-formula EMI pays the loan off exactly at the nominal
tenure: the closed-form balance after `tenureMonths` periods is zero. -/
theorem closedBalance_tenure (P r : ℚ) (hr : 0 < r) (n : ℕ) (hn : 0 < n)
    (E : ℚ) (hE : E = P * (r * (1 + r) ^ n) / ((1 + r) ^ n - 1)) :
    closedBalance P E r n = 0 := by
  have hpow : 1 < (1 + r) ^ n := one_lt_onePlusRate_pow r hr n hn
  have hden : (1 + r) ^ n - 1 ≠ 0 := by linarith
  have hr0 : r ≠ 0 := ne_of_gt hr
  rw [closedBalance, hE]
  field_simp
  ring

/-- A nonempty schedule can only be produced while the loop guard holds. -/
theorem genGo_ne_nil (E r o : ℚ) (cap : ℕ) (fuel : ℕ) (b : ℚ) (m y : ℕ)
    (s : List PaymentRecord) (hs : genGo E r o cap fuel b m y = some s)
    (hne : s ≠ []) : 0 < b ∧ m < cap := by
  by_contra h
  rw [genGo_stop E r o cap fuel b m y h] at hs
  exact hne (by simpa using hs.symm)

/-- One unfolding of the loop of `generateAmortizationSchedule` when the
guard holds, with the per-period quantities spelled out. -/
theorem genGo_step (E r o : ℚ) (cap f : ℕ) (b : ℚ) (m y : ℕ)
    (h : 0 < b ∧ m < cap) :
    genGo E r o cap (f + 1) b m y =
      (genGo E r o cap f
          (b - (if b < E - b * r + o then b else E - b * r + o))
          (if m + 1 = 12 then 0 else m + 1)
          (if m + 1 = 12 then y + 1 else y)).map
        (⟨m + 1, y,
          b * r + (if b < E - b * r + o then b else E - b * r + o),
          (if b < E - b * r + o then b else E - b * r + o), b * r,
          max 0 (b - (if b < E - b * r + o then b else E - b * r + o))⟩ :: ·) := by
  simp only [genGo, if_pos h]

/-- Main loop invariant for the standard generator run with zero
overpayment: starting `j` periods before the nominal tenure on the exact
closed-form balance, the loop finishes within `j` more iterations and the
last emitted record (if any) carries balance exactly `0`. -/
theorem genGo_payoff (P r : ℚ) (hr : 0 < r) (n : ℕ) (hn : 0 < n)
    (E : ℚ) (hE : E = P * (r * (1 + r) ^ n) / ((1 + r) ^ n - 1)) :
    ∀ j k (b : ℚ) (m y fuel : ℕ), k + j = n → b = closedBalance P E r k →
      m = k % 12 → j ≤ fuel →
      ∃ s, genGo E r 0 (n * 2) fuel b m y = some s ∧ s.length ≤ j ∧
        (0 < b → ∃ rec, s.getLast? = some rec ∧ rec.balance = 0) := by
  intro j
  induction j with
  | zero =>
      intro k b m y fuel hk hb _ _
      have hkn : k = n := by omega
      have hb0 : b = 0 := by
        rw [hb, hkn, closedBalance_tenure P r hr n hn E hE]
      refine ⟨[], genGo_stop _ _ _ _ _ _ _ _ (by simp [hb0]), by simp, ?_⟩
      intro hpos
      exact absurd hpos (by simp [hb0])
  | succ j ih =>
      intro k b m y fuel hk hb hm hfuel
      by_cases hbpos : 0 < b
      · have hkn : k < n := by omega
        have hguard : 0 < b ∧ m < n * 2 := ⟨hbpos, by omega⟩
        obtain ⟨f, rfl⟩ : ∃ f, fuel = f + 1 := ⟨fuel - 1, by omega⟩
        have hstep := genGo_step E r 0 (n * 2) f b m y hguard
        by_cases hclamp : b < E - b * r + 0
        · -- final-period clamp: the whole remaining balance is paid
          rw [if_pos hclamp] at hstep
          rw [genGo_stop _ _ _ _ f (b - b) _ _ (by simp), Option.map_some'] at hstep
          refine ⟨_, hstep, by simp, fun _ => by simp⟩
        · -- regular period: the balance follows the closed form
          rw [if_neg hclamp] at hstep
          have hb' : b - (E - b * r + 0) = closedBalance P E r (k + 1) := by
            rw [hb, ← closedBalance_step P E r (ne_of_gt hr) k]
            ring
          obtain ⟨t, ht, htlen, htlast⟩ :=
            ih (k + 1) (b - (E - b * r + 0))
              (if m + 1 = 12 then 0 else m + 1)
              (if m + 1 = 12 then y + 1 else y) f
              (by omega) hb' (by split <;> omega) (by omega)
          rw [ht, Option.map_some'] at hstep
          have hnb_nonneg : 0 ≤ b - (E - b * r + 0) := by
            push_neg at hclamp
            linarith
          refine ⟨_, hstep, by simpa using htlen, fun _ => ?_⟩
          rcases t with _ | ⟨u, t'⟩
          · have hnb0 : b - (E - b * r + 0) = 0 := by
              by_contra hne
              have hpos : 0 < b - (E - b * r + 0) :=
                lt_of_le_of_ne hnb_nonneg (Ne.symm hne)
              obtain ⟨rec, hrec, -⟩ := htlast hpos
              simp at hrec
            simp [hnb0]
            linarith
          · have hpos : 0 < b - (E - b * r + 0) :=
              (genGo_ne_nil _ _ _ _ _ _ _ _ _ ht (by simp)).1
            obtain ⟨rec, hrec, hrecbal⟩ := htlast hpos
            refine ⟨rec, ?_, hrecbal⟩
            simp only [List.getLast?_cons_cons]
            exact hrec
      · exact ⟨[], genGo_stop _ _ _ _ _ _ _ _ (by tauto), by simp, fun h => absurd h hbpos⟩

/-- Helper: the standard schedule generator with zero overpayment
finishes within n iterations, with at most n records and a final balance
of less than one currency unit. -/
theorem standardSchedulePayoffAux (P r : ℚ) (n : ℕ)
    (hP : 0 < P) (hr : 0 < r) (hn : 0 < n) (fuel : ℕ) (hfuel : n ≤ fuel) :
    ∃ s, generateAmortizationSchedule P r n 0 fuel = some s ∧
      s.length ≤ n ∧ ∃ rec, s.getLast? = some rec ∧ rec.balance < 1 := by
  have hmr : 0 < r / 12 / 100 := by positivity
  have hE : calculateMonthlyEMI P r n =
      P * ((r / 12 / 100) * (1 + r / 12 / 100) ^ n) /
        ((1 + r / 12 / 100) ^ n - 1) := by
    rw [calculateMonthlyEMI]
    exact if_neg (ne_of_gt hmr)
  obtain ⟨s, hs, hlen, hlast⟩ :=
    genGo_payoff P (r / 12 / 100) hmr n hn (calculateMonthlyEMI P r n) hE
      n 0 P 0 0 fuel (by omega) (closedBalance_zero _ _ _).symm rfl hfuel
  obtain ⟨rec, hrec, hbal⟩ := hlast hP
  exact ⟨s, hs, hlen, rec, hrec, by rw [hbal]; norm_num⟩

/-- Claim C1: for every principal P > 0, annual rate r > 0 and tenure
n > 0, the standard schedule generator called with monthlyOverpayment = 0
finishes (within any fuel of at least n iterations), its schedule has
length at most n, and the final record's balance is less than 1 unit of
currency (in exact arithmetic it is exactly 0). -/
theorem standardSchedule_finalBalance_length (P r : ℚ) (n : ℕ)
    (hP : 0 < P) (hr : 0 < r) (hn : 0 < n) (fuel : ℕ) (hfuel : n ≤ fuel) :
    ∃ s, generateAmortizationSchedule P r n 0 fuel = some s ∧
      s.length ≤ n ∧ ∃ rec, s.getLast? = some rec ∧ rec.balance < 1 :=
  standardSchedulePayoffAux P r n hP hr hn fuel hfuel

/-- Witness for C1 at P = 1000, r = 5 %, n = 12. -/
theorem standardSchedule_finalBalance_length_witness :
    ∃ s, generateAmortizationSchedule 1000 5 12 0 12 = some s ∧
      s.length ≤ 12 ∧ ∃ rec, s.getLast? = some rec ∧ rec.balance < 1 :=
  standardSchedule_finalBalance_length 1000 5 12 (by norm_num) (by norm_num)
    (by norm_num) 12 le_rfl

/-- Claim C4: with annual rate 0 the EMI calculator returns exactly
principal / tenureMonths (degenerate closed form, no compounding). -/
theorem calculateMonthlyEMI_zero_rate (P : ℚ) (n : ℕ) (hP : 0 ≤ P) (hn : 0 < n) :
    calculateMonthlyEMI P 0 n = P / n := by
  norm_num [calculateMonthlyEMI]

/-- Witness for C4 at P = 100, n = 8. -/
theorem calculateMonthlyEMI_zero_rate_witness :
    calculateMonthlyEMI 100 0 8 = 100 / 8 :=
  calculateMonthlyEMI_zero_rate 100 8 (by norm_num) (by norm_num)

/-- With EMI 1, zero rate and overpayment -2, the loop body strictly grows
the balance while the resetting month counter never reaches the cap 24,
so the loop never finishes, whatever the fuel. -/
theorem genGo_neg_overpayment_diverges :
    ∀ fuel (b : ℚ) (m y : ℕ), 0 < b → m < 12 →
      genGo 1 0 (-2) 24 fuel b m y = none := by
  intro fuel
  induction fuel with
  | zero =>
      intro b m y hb hm
      simp only [genGo, if_pos (⟨hb, by omega⟩ : 0 < b ∧ m < 24)]
  | succ f ihf =>
      intro b m y hb hm
      rw [genGo_step 1 0 (-2) 24 f b m y ⟨hb, by omega⟩]
      have hc : ¬ b < 1 - b * 0 + (-2) := by
        rw [mul_zero]
        intro h
        linarith
      rw [if_neg hc]
      rw [ihf (b - (1 - b * 0 + (-2))) _ _ (by rw [mul_zero]; linarith)
        (by split <;> omega)]
      rfl

/-- Claim C2 (code bug): the "2 × tenure" iteration cap of
`generateAmortizationSchedule` compares the calendar-month counter, which
is reset to 0 every 12 iterations, so for tenure 12 it never fires; with a
pathological overpayment of -2 (payment below interest) on a 12-unit,
0 %-rate, 12-month loan the loop never finishes, whatever fuel it is
given — contradicting the claimed termination with at most 2 × tenure
records. -/
theorem generateAmortizationSchedule_cap_never_fires :
    ∀ fuel, generateAmortizationSchedule 12 0 12 (-2) fuel = none := by
  intro fuel
  simp only [generateAmortizationSchedule]
  have hE : calculateMonthlyEMI 12 0 12 = 1 := by
    norm_num [calculateMonthlyEMI]
  rw [hE, show (0 : ℚ) / 12 / 100 = 0 by norm_num, show 12 * 2 = 24 from rfl]
  exact genGo_neg_overpayment_diverges fuel 12 0 0 (by norm_num) (by norm_num)

/-- Running the loop from a smaller balance with a larger overpayment
finishes whenever the original run finishes, and emits at most as many
records. -/
theorem genGo_length_mono (E r o1 o2 : ℚ) (cap : ℕ) (hr : 0 ≤ r)
    (ho : o1 ≤ o2) :
    ∀ fuel (b1 b2 : ℚ) (m y : ℕ) (s1 : List PaymentRecord), b2 ≤ b1 →
      genGo E r o1 cap fuel b1 m y = some s1 →
      ∃ s2, genGo E r o2 cap fuel b2 m y = some s2 ∧ s2.length ≤ s1.length := by
  intro fuel
  induction fuel with
  | zero =>
      intro b1 b2 m y s1 hb hs1
      have hng1 : ¬(0 < b1 ∧ m < cap) := by
        intro hg
        simp [genGo, if_pos hg] at hs1
      have hng2 : ¬(0 < b2 ∧ m < cap) := fun hg => hng1 ⟨lt_of_lt_of_le hg.1 hb, hg.2⟩
      have hs1' : s1 = [] := by
        rw [genGo_stop _ _ _ _ _ _ _ _ hng1] at hs1
        simpa using hs1.symm
      exact ⟨[], genGo_stop _ _ _ _ _ _ _ _ hng2, by simp [hs1']⟩
  | succ f ihf =>
      intro b1 b2 m y s1 hb hs1
      by_cases hg2 : 0 < b2 ∧ m < cap
      · have hg1 : 0 < b1 ∧ m < cap := ⟨lt_of_lt_of_le hg2.1 hb, hg2.2⟩
        rw [genGo_step _ _ _ _ _ _ _ _ hg1] at hs1
        obtain ⟨t1, ht1, hs1'⟩ := Option.map_eq_some'.mp hs1
        have hbr : b2 * r ≤ b1 * r := mul_le_mul_of_nonneg_right hb hr
        have hb' : b2 - (if b2 < E - b2 * r + o2 then b2 else E - b2 * r + o2) ≤
            b1 - (if b1 < E - b1 * r + o1 then b1 else E - b1 * r + o1) := by
          by_cases hc1 : b1 < E - b1 * r + o1 <;>
            by_cases hc2 : b2 < E - b2 * r + o2 <;>
              simp only [if_pos, if_neg, hc1, hc2, if_true, if_false] <;>
                push_neg at * <;> linarith
        obtain ⟨t2, ht2, hlen⟩ := ihf _ _ _ (if m + 1 = 12 then y + 1 else y) t1 hb' ht1
        refine ⟨⟨m + 1, y,
            b2 * r + (if b2 < E - b2 * r + o2 then b2 else E - b2 * r + o2),
            (if b2 < E - b2 * r + o2 then b2 else E - b2 * r + o2), b2 * r,
            max 0 (b2 - (if b2 < E - b2 * r + o2 then b2 else E - b2 * r + o2))⟩ :: t2,
          ?_, ?_⟩
        · rw [genGo_step _ _ _ _ _ _ _ _ hg2, ht2, Option.map_some']
        · rw [← hs1']
          simpa using hlen
      · exact ⟨[], genGo_stop _ _ _ _ _ _ _ _ hg2, by simp⟩

/-- Claim C5 (amended): for fixed P > 0, r > 0, n > 0 and overpayments
0 < o1 < o2, both runs of the standard generator finish (within fuel ≥ n)
and the schedule for the larger overpayment is at most as long — weak,
not strict, monotonicity. -/
theorem schedule_length_antitone (P r : ℚ) (n : ℕ) (o1 o2 : ℚ)
    (hP : 0 < P) (hr : 0 < r) (hn : 0 < n) (ho1 : 0 < o1) (ho12 : o1 < o2)
    (fuel : ℕ) (hfuel : n ≤ fuel) :
    ∃ s1 s2, generateAmortizationSchedule P r n o1 fuel = some s1 ∧
      generateAmortizationSchedule P r n o2 fuel = some s2 ∧
      s2.length ≤ s1.length := by
  obtain ⟨s0, hs0, -, -⟩ :=
    standardSchedulePayoffAux P r n hP hr hn fuel hfuel
  have hmr : (0 : ℚ) ≤ r / 12 / 100 := by positivity
  rw [generateAmortizationSchedule] at hs0
  obtain ⟨s1, hs1, -⟩ :=
    genGo_length_mono _ _ 0 o1 _ hmr (le_of_lt ho1) fuel P P 0 0 s0 le_rfl hs0
  obtain ⟨s2, hs2, hlen⟩ :=
    genGo_length_mono _ _ o1 o2 _ hmr (le_of_lt ho12) fuel P P 0 0 s1 le_rfl hs1
  exact ⟨s1, s2, hs1, hs2, hlen⟩

/-- Witness for C5 (amended) at P = 1000, r = 5 %, n = 12, o1 = 10,
o2 = 20. -/
theorem schedule_length_antitone_witness :
    ∃ s1 s2, generateAmortizationSchedule 1000 5 12 10 12 = some s1 ∧
      generateAmortizationSchedule 1000 5 12 20 12 = some s2 ∧
      s2.length ≤ s1.length :=
  schedule_length_antitone 1000 5 12 10 20 (by norm_num) (by norm_num)
    (by norm_num) (by norm_num) (by norm_num) 12 le_rfl

/-- Counterexample to C5 as stated: on a 100-unit, 12 %-a.-year, 2-month
loan, overpayments 1 and 2 both yield schedules of length exactly 2, so
increasing the overpayment does not strictly decrease the length. -/
theorem schedule_length_not_strict :
    ∃ s1 s2, generateAmortizationSchedule 100 12 2 1 2 = some s1 ∧
      generateAmortizationSchedule 100 12 2 2 2 = some s2 ∧
      ¬ s2.length < s1.length := by
  norm_num [generateAmortizationSchedule, genGo, calculateMonthlyEMI]

/-- Chained per-period invariant over a schedule: each record's principal
component does not exceed the balance entering that period (the previous
record's stored balance, or the starting balance for the first record),
and each stored balance is nonnegative. -/
def scheduleInv (entering : ℚ) : List PaymentRecord → Prop
  | [] => True
  | rec :: rest => rec.principal ≤ entering ∧ 0 ≤ rec.balance ∧
      scheduleInv rec.balance rest

/-- Any schedule the standard loop produces satisfies the chained
invariant from its starting balance, for every input. -/
theorem genGo_scheduleInv (E r o : ℚ) (cap : ℕ) :
    ∀ fuel (b : ℚ) (m y : ℕ) (s : List PaymentRecord),
      genGo E r o cap fuel b m y = some s → scheduleInv b s := by
  intro fuel
  induction fuel with
  | zero =>
      intro b m y s hs
      by_cases hg : 0 < b ∧ m < cap
      · simp [genGo, if_pos hg] at hs
      · rw [genGo_stop _ _ _ _ _ _ _ _ hg] at hs
        obtain rfl : s = [] := by simpa using hs.symm
        trivial
  | succ f ihf =>
      intro b m y s hs
      by_cases hg : 0 < b ∧ m < cap
      · rw [genGo_step _ _ _ _ _ _ _ _ hg] at hs
        obtain ⟨t, ht, hs'⟩ := Option.map_eq_some'.mp hs
        subst hs'
        have hple : (if b < E - b * r + o then b else E - b * r + o) ≤ b := by
          split
          · exact le_rfl
          · linarith [not_lt.mp (by assumption : ¬ b < E - b * r + o)]
        have hnb : 0 ≤ b - (if b < E - b * r + o then b else E - b * r + o) := by
          linarith
        refine ⟨hple, le_max_left _ _, ?_⟩
        have hmax : max 0 (b - (if b < E - b * r + o then b else E - b * r + o)) =
            b - (if b < E - b * r + o then b else E - b * r + o) :=
          max_eq_right hnb
        simpa [hmax] using ihf _ _ _ t ht
      · rw [genGo_stop _ _ _ _ _ _ _ _ hg] at hs
        obtain rfl : s = [] := by simpa using hs.symm
        trivial

/-- Structure `PartPaymentResult` from the core engine (`tenureSaved` may in
principle be negative, so it is an integer here). -/
structure PartPaymentResult where
  originalBalance : ℚ
  lumpSumAmount : ℚ
  newBalance : ℚ
  principalReduction : ℚ
  originalTenureMonths : ℕ
  newTenureMonths : ℕ
  tenureSaved : ℤ
  originalTotalInterest : ℚ
  newTotalInterest : ℚ
  interestSaved : ℚ
  maxAllowedPayment : ℚ
  isWithinLimit : Bool
  schedule : List PaymentRecord
deriving DecidableEq

/-- Function `calculatePartPaymentImpact` from the core engine.  The fuel is
passed through to the inner schedule generation of the non-degenerate
branch (the source also computes an unused `newEMI`, omitted here).  The
source clamps `newBalance` with `Math.max(0, ...)` and special-cases
`newBalance === 0`. -/
def calculatePartPaymentImpact (currentBalance : ℚ) (remainingTenureMonths : ℕ)
    (annualRate lumpSumAmount originalLoanAmount : ℚ) (fuel : ℕ) :
    Option PartPaymentResult :=
  let maxAllowedPayment := originalLoanAmount * 0.1
  let isWithinLimit : Bool := lumpSumAmount ≤ maxAllowedPayment
  let originalEMI := calculateMonthlyEMI currentBalance annualRate remainingTenureMonths
  let originalTotalInterest :=
    (calculateTotalInterestAndAmount currentBalance originalEMI remainingTenureMonths).1
  let newBalance := max 0 (currentBalance - lumpSumAmount)
  if newBalance = 0 then
    some
      { originalBalance := currentBalance
        lumpSumAmount := lumpSumAmount
        newBalance := 0
        principalReduction := currentBalance
        originalTenureMonths := remainingTenureMonths
        newTenureMonths := 0
        tenureSaved := (remainingTenureMonths : ℤ)
        originalTotalInterest := originalTotalInterest
        newTotalInterest := 0
        interestSaved := originalTotalInterest
        maxAllowedPayment := maxAllowedPayment
        isWithinLimit := isWithinLimit
        schedule := [] }
  else
    (generateAmortizationSchedule newBalance annualRate remainingTenureMonths 0
        fuel).map fun schedule =>
      let newTenureMonths := schedule.length
      let newTotalInterest := (schedule.map (·.interest)).sum
      { originalBalance := currentBalance
        lumpSumAmount := lumpSumAmount
        newBalance := newBalance
        principalReduction := lumpSumAmount
        originalTenureMonths := remainingTenureMonths
        newTenureMonths := newTenureMonths
        tenureSaved := (remainingTenureMonths : ℤ) - newTenureMonths
        originalTotalInterest := originalTotalInterest
        newTotalInterest := newTotalInterest
        interestSaved := originalTotalInterest - newTotalInterest
        maxAllowedPayment := maxAllowedPayment
        isWithinLimit := isWithinLimit
        schedule := schedule }

/-- Claim C6: when the lump sum is at least the current balance, part-payment
evaluation takes the degenerate branch: zero new balance, zero new
tenure, zero new interest, interest saved equals the original total
interest exactly, and an empty schedule; the re-amortization path is
never entered (the result is `some` regardless of the fuel given to the
inner generator). -/
theorem partPayment_full_lumpSum (cb : ℚ) (rem : ℕ) (r ls ol : ℚ) (fuel : ℕ)
    (h : cb ≤ ls) :
    ∃ res, calculatePartPaymentImpact cb rem r ls ol fuel = some res ∧
      res.newBalance = 0 ∧ res.newTenureMonths = 0 ∧
      res.newTotalInterest = 0 ∧ res.interestSaved = res.originalTotalInterest ∧
      res.schedule = [] := by
  have hnb : max 0 (cb - ls) = 0 := max_eq_left (by linarith)
  rw [calculatePartPaymentImpact]
  simp only [hnb, if_true]
  exact ⟨_, rfl, rfl, rfl, rfl, rfl, rfl⟩

/-- Witness for C6 at lump sum equal to the whole balance. -/
theorem partPayment_full_lumpSum_witness :
    ∃ res, calculatePartPaymentImpact 100 120 5 100 100 120 = some res ∧
      res.newBalance = 0 ∧ res.newTenureMonths = 0 ∧
      res.newTotalInterest = 0 ∧ res.interestSaved = res.originalTotalInterest ∧
      res.schedule = [] :=
  partPayment_full_lumpSum 100 120 5 100 100 120 le_rfl

/-- Calendar date as JS `Date` holds it: `year`, 0-based `month` (0 =
January) and 1-based `day`. -/
structure JSDate where
  year : ℕ
  month : ℕ
  day : ℕ
deriving DecidableEq

/-- Gregorian leap-year rule used by JS `Date`. -/
def isLeapYear (y : ℕ) : Bool :=
  y % 4 == 0 && (y % 100 != 0 || y % 400 == 0)

/-- Number of days of 0-based month `m` in year `y` (months outside 0–11
never reach this function in normalised dates; they default to 31). -/
def daysInMonth (y m : ℕ) : ℕ :=
  if m = 1 then (if isLeapYear y then 29 else 28)
  else if m = 3 ∨ m = 5 ∨ m = 8 ∨ m = 10 then 30
  else 31

theorem daysInMonth_ge_28 (y m : ℕ) : 28 ≤ daysInMonth y m := by
  unfold daysInMonth
  split
  · split <;> omega
  · split <;> omega

/-- Day-overflow normalisation of JS `Date`: while the day exceeds the
length of the current month, move to the next month.  Each step removes
at least 28 days, so `day` itself is enough fuel. -/
def rollDaysAux : ℕ → ℕ → ℕ → ℕ → JSDate
  | 0, y, m, day => ⟨y, m, day⟩
  | fuel + 1, y, m, day =>
      if day ≤ daysInMonth y m then ⟨y, m, day⟩
      else rollDaysAux fuel (if m = 11 then y + 1 else y)
        (if m = 11 then 0 else m + 1) (day - daysInMonth y m)

/-- JS `new Date(y, monthExpr, day)` normalisation for a possibly
overflowing month expression and day: excess months move into the year,
then day overflow rolls into following months. -/
def jsDateOfYMD (y monthExpr day : ℕ) : JSDate :=
  rollDaysAux day (y + monthExpr / 12) (monthExpr % 12) day

/-- Function `addMonths` from the advanced calculator: `setMonth(getMonth() + n)`
with the host normalisation. -/
def addMonths (date : JSDate) (months : ℕ) : JSDate :=
  jsDateOfYMD date.year (date.month + months) date.day

/-- Function `getPaymentDate` from the advanced calculator: advance the start date
by `monthOffset` months, then take the preferred payment day clamped to
that month's last day (`new Date(y, m + 1, 0).getDate()` is the last day
of month `(y, m)`). -/
def getPaymentDate (startDate : JSDate) (monthOffset paymentDay : ℕ) : JSDate :=
  let date := addMonths startDate monthOffset
  let lastDay := daysInMonth date.year date.month
  ⟨date.year, date.month, min paymentDay lastDay⟩

/-- Function `isSameMonth` from the advanced calculator: same year and month. -/
def isSameMonth (date1 date2 : JSDate) : Bool :=
  date1.year == date2.year && date1.month == date2.month

/-- Linear key that orders valid calendar dates like their epoch
timestamp (days are at most 31 < 32). -/
def dateKey (d : JSDate) : ℕ :=
  (d.year * 12 + d.month) * 32 + d.day

/-- JS `Date` comparison `d1 <= d2`. -/
def dateLe (d1 d2 : JSDate) : Bool :=
  decide (dateKey d1 ≤ dateKey d2)

/-- The payment date exactly as the specification words it: the year and
month of the start date advanced by exactly `monthOffset` calendar
months, with the preferred day clamped to the last day of that target
month. -/
def specPaymentDateFor (startDate : JSDate) (monthOffset preferredDay : ℕ) :
    JSDate :=
  let ym := startDate.year * 12 + startDate.month + monthOffset
  ⟨ym / 12, ym % 12, min preferredDay (daysInMonth (ym / 12) (ym % 12))⟩

/-- Counterexample to C9 as stated: starting from 31 January 2025 with
offset 1 and preferred day 15, the code lands in March (the day overflow
of `setMonth` rolls 31 February into March) instead of the specified
February. -/
theorem getPaymentDate_differs_from_spec :
    getPaymentDate ⟨2025, 0, 31⟩ 1 15 ≠ specPaymentDateFor ⟨2025, 0, 31⟩ 1 15 := by
  decide

/-- Helper: with a start day of at most 28 the payment-date function
agrees with the specification's description. -/
theorem getPaymentDateSpecAux (start : JSDate) (k pday : ℕ)
    (hm : start.month < 12) (hd1 : 1 ≤ start.day) (hd : start.day ≤ 28) :
    getPaymentDate start k pday = specPaymentDateFor start k pday := by
  obtain ⟨y, m, d⟩ := start
  simp only at hm hd1 hd
  unfold getPaymentDate specPaymentDateFor addMonths jsDateOfYMD
  have hroll : rollDaysAux d (y + (m + k) / 12) ((m + k) % 12) d =
      ⟨y + (m + k) / 12, (m + k) % 12, d⟩ := by
    obtain ⟨d', rfl⟩ : ∃ d', d = d' + 1 := ⟨d - 1, by omega⟩
    have hle : d' + 1 ≤ daysInMonth (y + (m + k) / 12) ((m + k) % 12) := by
      have := daysInMonth_ge_28 (y + (m + k) / 12) ((m + k) % 12)
      omega
    simp [rollDaysAux, if_pos hle]
  rw [hroll]
  have hy : y + (m + k) / 12 = (y * 12 + m + k) / 12 := by omega
  have hm12 : (m + k) % 12 = (y * 12 + m + k) % 12 := by omega
  simp only [hy, hm12]

/-- Claim C9 (amended): when the start date's day of month is at most 28
(so `setMonth` never overflows the day), the payment-date function
returns the year and month of the start date advanced by exactly
`monthOffset` calendar months, with the preferred day clamped to the
last day of that target month. -/
theorem getPaymentDate_eq_spec (start : JSDate) (k pday : ℕ)
    (hm : start.month < 12) (hd1 : 1 ≤ start.day) (hd : start.day ≤ 28) :
    getPaymentDate start k pday = specPaymentDateFor start k pday :=
  getPaymentDateSpecAux start k pday hm hd1 hd

/-- Witness for C9 (amended): day 31 in 30-day June clamps to 30. -/
theorem getPaymentDate_eq_spec_witness :
    getPaymentDate ⟨2025, 4, 15⟩ 1 31 = specPaymentDateFor ⟨2025, 4, 15⟩ 1 31 :=
  getPaymentDate_eq_spec ⟨2025, 4, 15⟩ 1 31 (by decide) (by decide) (by decide)

/-- Structure `AdvancedMortgageInput` from the advanced calculator.  TS optional
fields become `Option`s; the `has*` booleans mirror the source flags. -/
structure AdvancedMortgageInput where
  loanAmount : ℚ
  annualRate : ℚ
  tenureMonths : ℕ
  emiPaymentDate : ℕ
  loanStartDate : JSDate
  hasFixedRatePeriod : Bool
  fixedRateMonths : Option ℕ
  fixedRate : Option ℚ
  variableRate : Option ℚ
  fixedRateEndDate : Option JSDate
  hasLumpSum : Bool
  lumpSumAmount : Option ℚ
  lumpSumDate : Option JSDate
  hasExtraPayments : Bool
  extraPaymentAmount : Option ℚ
  extraPaymentStartDate : Option JSDate
  extraPaymentEndDate : Option JSDate

/-- Structure `PaymentDetail` from the advanced calculator. -/
structure PaymentDetail where
  date : JSDate
  monthNumber : ℕ
  principalPayment : ℚ
  interestPayment : ℚ
  totalPayment : ℚ
  balance : ℚ
  isLumpSumMonth : Bool
  isExtraPaymentMonth : Bool
  interestRate : ℚ
deriving DecidableEq

/-- Structure `AdvancedCalculationResult` from the advanced calculator
(`tenureSaved` may be negative, hence an integer). -/
structure AdvancedCalculationResult where
  schedule : List PaymentDetail
  originalTenureMonths : ℕ
  newTenureMonths : ℕ
  tenureSaved : ℤ
  originalTotalInterest : ℚ
  newTotalInterest : ℚ
  interestSaved : ℚ
  interestSavedPercentage : ℚ
  totalLumpSum : ℚ
  totalExtraPayments : ℚ
  originalMonthlyEMI : ℚ
  newMonthlyEMI : ℚ
deriving DecidableEq

/-- Function `getMonthlyRate` from the advanced calculator. -/
def getMonthlyRate (annualRate : ℚ) : ℚ :=
  annualRate / 100 / 12

/-- Function `calculateEMI` from the advanced calculator (same formula as
`calculateMonthlyEMI`, but parameterised on the monthly rate). -/
def calculateEMI (principal monthlyRate : ℚ) (months : ℕ) : ℚ :=
  if monthlyRate = 0 then
    principal / months
  else
    principal * monthlyRate * (1 + monthlyRate) ^ months /
      ((1 + monthlyRate) ^ months - 1)

/-- Effective annual rate chosen by the advanced loop for a payment date:
base rate by default; inside a fixed-rate block with an end date, the
fixed rate (when present) up to the end date, otherwise the variable
rate when present.  This transliterates the nested `if`s of the source,
including the `!== undefined` truthiness checks. -/
def selectRate (inp : AdvancedMortgageInput) (paymentDate : JSDate) : ℚ :=
  match inp.hasFixedRatePeriod, inp.fixedRateEndDate with
  | true, some endDate =>
      match (if dateLe paymentDate endDate then inp.fixedRate else none) with
      | some fr => fr
      | none =>
          match inp.variableRate with
          | some vr => vr
          | none => inp.annualRate
  | _, _ => inp.annualRate

/-- Guard of the extra-payment block:
`hasExtraPayments && startDate && endDate && amount` (a zero amount is
falsy in JS) together with the inclusive window test on the payment
date. -/
def extraHit (inp : AdvancedMortgageInput) (paymentDate : JSDate) : Bool :=
  match inp.hasExtraPayments, inp.extraPaymentStartDate,
      inp.extraPaymentEndDate, inp.extraPaymentAmount with
  | true, some sd, some ed, some amt =>
      amt != 0 && dateLe sd paymentDate && dateLe paymentDate ed
  | _, _, _, _ => false

/-- Guard of the lump-sum block: `hasLumpSum && lumpSumDate &&
lumpSumAmount` together with the same-calendar-month test. -/
def lumpHit (inp : AdvancedMortgageInput) (paymentDate : JSDate) : Bool :=
  match inp.hasLumpSum, inp.lumpSumDate, inp.lumpSumAmount with
  | true, some ld, some amt => amt != 0 && isSameMonth paymentDate ld
  | _, _, _ => false

/-- Loop of `calculateAdvancedMortgage`.  State: balance, accumulated
interest, accumulated lump-sum total, accumulated extra-payment total,
and the monotone month counter.  The guard is
`balance > 0 && month < tenureMonths * 2`; since the counter increases by
one per iteration, fuel `tenureMonths * 2` makes the fuel-exhaustion
branch (which returns like a guard failure) unreachable before the guard
itself fails, so this fuelled version agrees with the source loop. -/
def advGo (inp : AdvancedMortgageInput) (originalEMI : ℚ) :
    ℕ → ℚ → ℚ → ℚ → ℚ → ℕ → List PaymentDetail × ℚ × ℚ × ℚ
  | 0, _, tI, tL, tE, _ => ([], tI, tL, tE)
  | fuel + 1, balance, tI, tL, tE, month =>
      if 0 < balance ∧ month < inp.tenureMonths * 2 then
        let paymentDate := getPaymentDate inp.loanStartDate month inp.emiPaymentDate
        let currentRate := selectRate inp paymentDate
        let interestPayment := balance * getMonthlyRate currentRate
        let isExtraPaymentMonth := extraHit inp paymentDate
        let isLumpSumMonth := lumpHit inp paymentDate
        let extraAdd := if isExtraPaymentMonth then inp.extraPaymentAmount.getD 0 else 0
        let lumpAdd := if isLumpSumMonth then inp.lumpSumAmount.getD 0 else 0
        let principalPayment0 := originalEMI - interestPayment + extraAdd + lumpAdd
        let principalPayment :=
          if balance < principalPayment0 then balance else principalPayment0
        let totalPayment :=
          if balance < principalPayment0 then balance + interestPayment
          else originalEMI + extraAdd + lumpAdd
        let newBalance := balance - principalPayment
        let detail : PaymentDetail :=
          ⟨paymentDate, month + 1, principalPayment, interestPayment, totalPayment,
            max 0 newBalance, isLumpSumMonth, isExtraPaymentMonth, currentRate⟩
        let rest := advGo inp originalEMI fuel newBalance (tI + interestPayment)
          (tL + lumpAdd) (tE + extraAdd) (month + 1)
        (detail :: rest.1, rest.2)
      else ([], tI, tL, tE)

/-- Function `calculateAdvancedMortgage` from the advanced calculator. -/
def calculateAdvancedMortgage (input : AdvancedMortgageInput) :
    AdvancedCalculationResult :=
  let originalEMI :=
    calculateEMI input.loanAmount (getMonthlyRate input.annualRate) input.tenureMonths
  let run := advGo input originalEMI (input.tenureMonths * 2) input.loanAmount 0 0 0 0
  let schedule := run.1
  let totalInterestPaid := run.2.1
  let newTenureMonths := schedule.length
  let originalTotalInterest := originalEMI * input.tenureMonths - input.loanAmount
  let interestSaved := originalTotalInterest - totalInterestPaid
  { schedule := schedule
    originalTenureMonths := input.tenureMonths
    newTenureMonths := newTenureMonths
    tenureSaved := (input.tenureMonths : ℤ) - newTenureMonths
    originalTotalInterest := originalTotalInterest
    newTotalInterest := totalInterestPaid
    interestSaved := interestSaved
    interestSavedPercentage := interestSaved / originalTotalInterest * 100
    totalLumpSum := run.2.2.1
    totalExtraPayments := run.2.2.2
    originalMonthlyEMI := originalEMI
    newMonthlyEMI := originalEMI }

theorem advGo_stop (inp : AdvancedMortgageInput) (E : ℚ) (fuel : ℕ)
    (b tI tL tE : ℚ) (k : ℕ) (h : ¬(0 < b ∧ k < inp.tenureMonths * 2)) :
    advGo inp E fuel b tI tL tE k = ([], tI, tL, tE) := by
  cases fuel <;> simp [advGo, h]

/-- Every record the advanced loop emits stores exactly the lump-sum
flag, extra-payment flag and effective rate determined by its own
payment date. -/
theorem advGo_fields (inp : AdvancedMortgageInput) (E : ℚ) :
    ∀ fuel (b tI tL tE : ℚ) (k : ℕ),
      ∀ d ∈ (advGo inp E fuel b tI tL tE k).1,
        d.isLumpSumMonth = lumpHit inp d.date ∧
        d.isExtraPaymentMonth = extraHit inp d.date ∧
        d.interestRate = selectRate inp d.date := by
  intro fuel
  induction fuel with
  | zero =>
      intro b tI tL tE k d hd
      simp [advGo] at hd
  | succ f ihf =>
      intro b tI tL tE k d hd
      by_cases hg : 0 < b ∧ k < inp.tenureMonths * 2
      · simp only [advGo, if_pos hg] at hd
        rcases List.mem_cons.mp hd with rfl | hd'
        · exact ⟨rfl, rfl, rfl⟩
        · exact ihf _ _ _ _ _ d hd'
      · rw [advGo_stop inp E _ b tI tL tE k hg] at hd
        simp at hd

/-- The final lump-sum accumulator equals its starting value plus the
configured amount once per record flagged as a lump-sum month. -/
theorem advGo_lump_total (inp : AdvancedMortgageInput) (E : ℚ) :
    ∀ fuel (b tI tL tE : ℚ) (k : ℕ),
      (advGo inp E fuel b tI tL tE k).2.2.1 =
        tL + inp.lumpSumAmount.getD 0 *
          ((advGo inp E fuel b tI tL tE k).1.countP (·.isLumpSumMonth)) := by
  intro fuel
  induction fuel with
  | zero =>
      intro b tI tL tE k
      simp [advGo]
  | succ f ihf =>
      intro b tI tL tE k
      by_cases hg : 0 < b ∧ k < inp.tenureMonths * 2
      · simp only [advGo, if_pos hg, List.countP_cons]
        rw [ihf]
        by_cases hflag :
            lumpHit inp (getPaymentDate inp.loanStartDate k inp.emiPaymentDate) = true
        · simp only [hflag, if_pos, if_true]
          push_cast
          ring
        · simp only [hflag, if_neg, if_false, Bool.false_eq_true]
          push_cast
          ring
      · rw [advGo_stop inp E _ b tI tL tE k hg]
        simp

/-- The final extra-payment accumulator equals its starting value plus
the configured amount once per record flagged as an extra-payment
month. -/
theorem advGo_extra_total (inp : AdvancedMortgageInput) (E : ℚ) :
    ∀ fuel (b tI tL tE : ℚ) (k : ℕ),
      (advGo inp E fuel b tI tL tE k).2.2.2 =
        tE + inp.extraPaymentAmount.getD 0 *
          ((advGo inp E fuel b tI tL tE k).1.countP (·.isExtraPaymentMonth)) := by
  intro fuel
  induction fuel with
  | zero =>
      intro b tI tL tE k
      simp [advGo]
  | succ f ihf =>
      intro b tI tL tE k
      by_cases hg : 0 < b ∧ k < inp.tenureMonths * 2
      · simp only [advGo, if_pos hg, List.countP_cons]
        rw [ihf]
        by_cases hflag :
            extraHit inp (getPaymentDate inp.loanStartDate k inp.emiPaymentDate) = true
        · simp only [hflag, if_pos, if_true]
          push_cast
          ring
        · simp only [hflag, if_neg, if_false, Bool.false_eq_true]
          push_cast
          ring
      · rw [advGo_stop inp E _ b tI tL tE k hg]
        simp

/-- Counting helper: one flagged period at index `k = t` on top of a tail
covering indices `k + 1, …, k + L` gives one hit over `k, …, k + L`
exactly when `t` lies in that range. -/
theorem countP_singleton_index (k t L : ℕ) :
    ((if k + 1 ≤ t ∧ t < k + 1 + L then 1 else 0) + if k = t then 1 else 0) =
      if k ≤ t ∧ t < k + (L + 1) then 1 else 0 := by
  split_ifs <;> omega

/-- When the payment dates hit the lump-sum month exactly at period index
`t`, the schedule carries exactly one flagged record as soon as it is
long enough to reach period `t`, and none otherwise. -/
theorem advGo_countP_lump (inp : AdvancedMortgageInput) (E : ℚ) (t : ℕ)
    (H : ∀ m, lumpHit inp (getPaymentDate inp.loanStartDate m inp.emiPaymentDate)
      = true ↔ m = t) :
    ∀ fuel (b tI tL tE : ℚ) (k : ℕ),
      ((advGo inp E fuel b tI tL tE k).1.countP (·.isLumpSumMonth)) =
        if k ≤ t ∧ t < k + (advGo inp E fuel b tI tL tE k).1.length then 1
        else 0 := by
  intro fuel
  induction fuel with
  | zero =>
      intro b tI tL tE k
      simp only [advGo, List.countP_nil, List.length_nil]
      rw [if_neg (by omega)]
  | succ f ihf =>
      intro b tI tL tE k
      by_cases hg : 0 < b ∧ k < inp.tenureMonths * 2
      · simp only [advGo, if_pos hg, List.countP_cons, List.length_cons]
        rw [ihf, if_congr (H k) (rfl : (1 : ℕ) = 1) (rfl : (0 : ℕ) = 0)]
        exact countP_singleton_index k t _
      · rw [advGo_stop inp E _ b tI tL tE k hg]
        simp only [List.countP_nil, List.length_nil]
        rw [if_neg (by omega)]

/-- Chained per-period invariant for the advanced schedule, as
`scheduleInv` but on `PaymentDetail`. -/
def scheduleInvAdv (entering : ℚ) : List PaymentDetail → Prop
  | [] => True
  | d :: rest => d.principalPayment ≤ entering ∧ 0 ≤ d.balance ∧
      scheduleInvAdv d.balance rest

/-- Clamped principal payments never exceed the balance they are paid
from. -/
theorem clamp_le (b q : ℚ) : (if b < q then b else q) ≤ b := by
  split
  · exact le_rfl
  · exact not_lt.mp (by assumption)

/-- Subtracting the clamped principal keeps the balance nonnegative. -/
theorem clamp_sub_nonneg (b q : ℚ) :
    0 ≤ b - (if b < q then b else q) := by
  have := clamp_le b q
  linarith

/-- Any schedule the advanced loop produces satisfies the chained
invariant from its starting balance, for every input. -/
theorem advGo_scheduleInv (inp : AdvancedMortgageInput) (E : ℚ) :
    ∀ fuel (b tI tL tE : ℚ) (k : ℕ),
      scheduleInvAdv b (advGo inp E fuel b tI tL tE k).1 := by
  intro fuel
  induction fuel with
  | zero =>
      intro b tI tL tE k
      simp only [advGo]
      trivial
  | succ f ihf =>
      intro b tI tL tE k
      by_cases hg : 0 < b ∧ k < inp.tenureMonths * 2
      · simp only [advGo, if_pos hg]
        refine ⟨clamp_le b _, le_max_left _ _, ?_⟩
        rw [max_eq_right (clamp_sub_nonneg b _)]
        exact ihf _ _ _ _ _
      · rw [advGo_stop inp E _ b tI tL tE k hg]
        trivial

/-- The effective annual rate exactly as the specification words it: the
fixed rate while a configured fixed-rate period covers the payment date,
the variable rate afterwards, and the base rate when no fixed period is
configured. -/
def effectiveAnnualRate (inp : AdvancedMortgageInput) (paymentDate : JSDate) : ℚ :=
  if inp.hasFixedRatePeriod then
    match inp.fixedRateEndDate, inp.fixedRate, inp.variableRate with
    | some endDate, some fr, some vr =>
        if dateLe paymentDate endDate then fr else vr
    | _, _, _ => inp.annualRate
  else inp.annualRate

/-- For inputs whose fixed-rate block is either absent or fully
configured, the source's rate selection agrees with the specification's
description. -/
theorem selectRate_eq_effective (inp : AdvancedMortgageInput)
    (hwf : inp.hasFixedRatePeriod = true →
      inp.fixedRateEndDate.isSome ∧ inp.fixedRate.isSome ∧ inp.variableRate.isSome)
    (paymentDate : JSDate) :
    selectRate inp paymentDate = effectiveAnnualRate inp paymentDate := by
  unfold selectRate effectiveAnnualRate
  cases hfx : inp.hasFixedRatePeriod
  · cases inp.fixedRateEndDate <;> simp
  · obtain ⟨he, hf, hv⟩ := hwf hfx
    obtain ⟨endDate, hed⟩ := Option.isSome_iff_exists.mp he
    obtain ⟨fr, hfr⟩ := Option.isSome_iff_exists.mp hf
    obtain ⟨vr, hvr⟩ := Option.isSome_iff_exists.mp hv
    rw [hed, hfr, hvr]
    simp only [if_true]
    cases hle : dateLe paymentDate endDate <;> simp

/-- The schedule of `calculateAdvancedMortgage` is the first component of
the loop run from the full loan amount with fuel equal to the iteration
cap. -/
theorem calcAdv_schedule (inp : AdvancedMortgageInput) :
    (calculateAdvancedMortgage inp).schedule =
      (advGo inp
        (calculateEMI inp.loanAmount (getMonthlyRate inp.annualRate) inp.tenureMonths)
        (inp.tenureMonths * 2) inp.loanAmount 0 0 0 0).1 := rfl

theorem calcAdv_totalLumpSum (inp : AdvancedMortgageInput) :
    (calculateAdvancedMortgage inp).totalLumpSum =
      (advGo inp
        (calculateEMI inp.loanAmount (getMonthlyRate inp.annualRate) inp.tenureMonths)
        (inp.tenureMonths * 2) inp.loanAmount 0 0 0 0).2.2.1 := rfl

theorem calcAdv_totalExtraPayments (inp : AdvancedMortgageInput) :
    (calculateAdvancedMortgage inp).totalExtraPayments =
      (advGo inp
        (calculateEMI inp.loanAmount (getMonthlyRate inp.annualRate) inp.tenureMonths)
        (inp.tenureMonths * 2) inp.loanAmount 0 0 0 0).2.2.2 := rfl

/-- Claim C3: in both the standard generator and the date-aware advanced
engine, every emitted record has a nonnegative balance, and no record's
principal component exceeds the balance entering its period (the
starting balance for the first record, the previous record's balance
afterwards). -/
theorem schedules_balance_nonneg_principal_bounded :
    (∀ (P r : ℚ) (n : ℕ) (o : ℚ) (fuel : ℕ) (s : List PaymentRecord),
      generateAmortizationSchedule P r n o fuel = some s → scheduleInv P s) ∧
    (∀ inp : AdvancedMortgageInput,
      scheduleInvAdv inp.loanAmount (calculateAdvancedMortgage inp).schedule) := by
  constructor
  · intro P r n o fuel s hs
    exact genGo_scheduleInv _ _ _ _ fuel P 0 0 s hs
  · intro inp
    rw [calcAdv_schedule]
    exact advGo_scheduleInv inp _ _ _ _ _ _ _

/-- Witness for C3: a concrete two-period standard schedule. -/
theorem schedules_balance_nonneg_principal_bounded_witness :
    scheduleInv 2 [⟨1, 0, 1, 1, 0, 1⟩, ⟨2, 0, 1, 1, 0, 0⟩] :=
  schedules_balance_nonneg_principal_bounded.1 2 0 2 0 2
    [⟨1, 0, 1, 1, 0, 1⟩, ⟨2, 0, 1, 1, 0, 0⟩]
    (by norm_num [generateAmortizationSchedule, genGo, calculateMonthlyEMI])

/-- Claim C7: under any input whose fixed-rate block is absent or fully
configured, every emitted record's stored interest rate is the
specification's effective rate for its payment date (fixed rate on or
before the end date, variable rate after, base rate without a fixed
period), and the EMI is never recomputed: `newMonthlyEMI` equals
`originalMonthlyEMI`, which is the base-rate EMI. -/
theorem advanced_effective_rate_and_constant_EMI (inp : AdvancedMortgageInput)
    (hwf : inp.hasFixedRatePeriod = true →
      inp.fixedRateEndDate.isSome ∧ inp.fixedRate.isSome ∧ inp.variableRate.isSome) :
    (∀ d ∈ (calculateAdvancedMortgage inp).schedule,
      d.interestRate = effectiveAnnualRate inp d.date) ∧
    (calculateAdvancedMortgage inp).newMonthlyEMI =
      (calculateAdvancedMortgage inp).originalMonthlyEMI ∧
    (calculateAdvancedMortgage inp).originalMonthlyEMI =
      calculateEMI inp.loanAmount (getMonthlyRate inp.annualRate) inp.tenureMonths := by
  refine ⟨?_, rfl, rfl⟩
  intro d hd
  rw [calcAdv_schedule] at hd
  have h := advGo_fields inp _ _ _ _ _ _ _ d hd
  exact h.2.2.trans (selectRate_eq_effective inp hwf d.date)

/-- One unfolding of the advanced loop when the guard holds, with the
per-period quantities spelled out as in the source body. -/
theorem advGo_succ (inp : AdvancedMortgageInput) (E : ℚ) (f : ℕ)
    (b tI tL tE : ℚ) (k : ℕ) (hg : 0 < b ∧ k < inp.tenureMonths * 2) :
    advGo inp E (f + 1) b tI tL tE k =
      (let paymentDate := getPaymentDate inp.loanStartDate k inp.emiPaymentDate
       let currentRate := selectRate inp paymentDate
       let interestPayment := b * getMonthlyRate currentRate
       let isExtraPaymentMonth := extraHit inp paymentDate
       let isLumpSumMonth := lumpHit inp paymentDate
       let extraAdd := if isExtraPaymentMonth then inp.extraPaymentAmount.getD 0 else 0
       let lumpAdd := if isLumpSumMonth then inp.lumpSumAmount.getD 0 else 0
       let principalPayment0 := E - interestPayment + extraAdd + lumpAdd
       let principalPayment := if b < principalPayment0 then b else principalPayment0
       let totalPayment := if b < principalPayment0 then b + interestPayment
         else E + extraAdd + lumpAdd
       let newBalance := b - principalPayment
       let detail : PaymentDetail :=
         ⟨paymentDate, k + 1, principalPayment, interestPayment, totalPayment,
           max 0 newBalance, isLumpSumMonth, isExtraPaymentMonth, currentRate⟩
       let rest := advGo inp E f newBalance (tI + interestPayment)
         (tL + lumpAdd) (tE + extraAdd) (k + 1)
       (detail :: rest.1, rest.2)) := by
  simp only [advGo, if_pos hg]

/-- Example input with a fully configured fixed-rate block. -/
def fixedRateExampleInput : AdvancedMortgageInput where
  loanAmount := 2
  annualRate := 0
  tenureMonths := 2
  emiPaymentDate := 15
  loanStartDate := ⟨2024, 0, 15⟩
  hasFixedRatePeriod := true
  fixedRateMonths := some 1
  fixedRate := some 0
  variableRate := some 0
  fixedRateEndDate := some ⟨2024, 0, 31⟩
  hasLumpSum := false
  lumpSumAmount := none
  lumpSumDate := none
  hasExtraPayments := false
  extraPaymentAmount := none
  extraPaymentStartDate := none
  extraPaymentEndDate := none

/-- Witness for C7 on a concrete fixed-rate configuration. -/
theorem advanced_effective_rate_and_constant_EMI_witness :
    (∀ d ∈ (calculateAdvancedMortgage fixedRateExampleInput).schedule,
      d.interestRate = effectiveAnnualRate fixedRateExampleInput d.date) ∧
    (calculateAdvancedMortgage fixedRateExampleInput).newMonthlyEMI =
      (calculateAdvancedMortgage fixedRateExampleInput).originalMonthlyEMI ∧
    (calculateAdvancedMortgage fixedRateExampleInput).originalMonthlyEMI =
      calculateEMI fixedRateExampleInput.loanAmount
        (getMonthlyRate fixedRateExampleInput.annualRate)
        fixedRateExampleInput.tenureMonths :=
  advanced_effective_rate_and_constant_EMI fixedRateExampleInput (by decide)

/-- Claim C8 (amended): for a configured lump sum dated in the calendar month
of the 13th payment, when the loan start day is at most 28 (so payment
months never roll over), the schedule flags exactly one record as the
lump-sum month if it reaches the 13th payment and none otherwise, and
`totalLumpSum` is the configured amount counted exactly that often (no
double counting). -/
theorem advanced_lumpSum_thirteenth (inp : AdvancedMortgageInput)
    (la : ℚ) (ld : JSDate)
    (hlump : inp.hasLumpSum = true)
    (hla : inp.lumpSumAmount = some la)
    (hld : inp.lumpSumDate = some ld)
    (hla0 : la ≠ 0)
    (htenure : inp.tenureMonths = 360)
    (hsm : inp.loanStartDate.month < 12)
    (hsd1 : 1 ≤ inp.loanStartDate.day)
    (hsd : inp.loanStartDate.day ≤ 28)
    (hldm : ld.month < 12)
    (hl13 : ld.year * 12 + ld.month =
      inp.loanStartDate.year * 12 + inp.loanStartDate.month + 12) :
    ((calculateAdvancedMortgage inp).schedule.countP (·.isLumpSumMonth)) =
      (if 12 < (calculateAdvancedMortgage inp).schedule.length then 1 else 0) ∧
    (calculateAdvancedMortgage inp).totalLumpSum =
      la * ((calculateAdvancedMortgage inp).schedule.countP (·.isLumpSumMonth)) := by
  have H : ∀ m, lumpHit inp
      (getPaymentDate inp.loanStartDate m inp.emiPaymentDate) = true ↔ m = 12 := by
    intro m
    rw [getPaymentDateSpecAux inp.loanStartDate m inp.emiPaymentDate hsm hsd1 hsd]
    simp only [lumpHit, hlump, hld, hla, specPaymentDateFor, isSameMonth,
      Bool.and_eq_true, bne_iff_ne, ne_eq, beq_iff_eq]
    constructor
    · rintro ⟨-, h1, h2⟩
      omega
    · rintro rfl
      refine ⟨hla0, ?_, ?_⟩ <;> omega
  have hcount : ((calculateAdvancedMortgage inp).schedule.countP (·.isLumpSumMonth)) =
      (if 12 < (calculateAdvancedMortgage inp).schedule.length then 1 else 0) := by
    rw [calcAdv_schedule, advGo_countP_lump inp _ 12 H]
    split_ifs <;> omega
  refine ⟨hcount, ?_⟩
  rw [calcAdv_totalLumpSum, advGo_lump_total, ← calcAdv_schedule, hla]
  norm_num

/-- Example input for the amended C8: start day 15 (no rollover), lump
sum of 5 dated January 2025, the month of the 13th payment. -/
def lumpThirteenthExampleInput : AdvancedMortgageInput where
  loanAmount := 360
  annualRate := 0
  tenureMonths := 360
  emiPaymentDate := 15
  loanStartDate := ⟨2024, 0, 15⟩
  hasFixedRatePeriod := false
  fixedRateMonths := none
  fixedRate := none
  variableRate := none
  fixedRateEndDate := none
  hasLumpSum := true
  lumpSumAmount := some 5
  lumpSumDate := some ⟨2025, 0, 7⟩
  hasExtraPayments := true
  extraPaymentAmount := some 1000
  extraPaymentStartDate := some ⟨2025, 1, 1⟩
  extraPaymentEndDate := some ⟨2100, 11, 31⟩

/-- Witness for C8 (amended). -/
theorem advanced_lumpSum_thirteenth_witness :
    ((calculateAdvancedMortgage lumpThirteenthExampleInput).schedule.countP
      (·.isLumpSumMonth)) =
      (if 12 < (calculateAdvancedMortgage lumpThirteenthExampleInput).schedule.length
        then 1 else 0) ∧
    (calculateAdvancedMortgage lumpThirteenthExampleInput).totalLumpSum =
      5 * ((calculateAdvancedMortgage lumpThirteenthExampleInput).schedule.countP
        (·.isLumpSumMonth)) :=
  advanced_lumpSum_thirteenth lumpThirteenthExampleInput 5 ⟨2025, 0, 7⟩ rfl rfl rfl
    (by norm_num) rfl (by decide) (by decide) (by decide) (by decide) (by decide)

/-- Example input falsifying C8 as stated: the loan starts 29 February
2024, so payments 13 and 14 both fall in March 2025 (the 13th rolls over
from the short February 2025), and the lump sum dated 15 March 2025 — the
month of the 13th payment of this 360-month schedule — is applied and
counted twice. -/
def rolloverLumpExampleInput : AdvancedMortgageInput where
  loanAmount := 360
  annualRate := 0
  tenureMonths := 360
  emiPaymentDate := 29
  loanStartDate := ⟨2024, 1, 29⟩
  hasFixedRatePeriod := false
  fixedRateMonths := none
  fixedRate := none
  variableRate := none
  fixedRateEndDate := none
  hasLumpSum := true
  lumpSumAmount := some 5
  lumpSumDate := some ⟨2025, 2, 15⟩
  hasExtraPayments := true
  extraPaymentAmount := some 1000
  extraPaymentStartDate := some ⟨2025, 3, 1⟩
  extraPaymentEndDate := some ⟨2100, 11, 31⟩

set_option maxRecDepth 8000 in
set_option maxHeartbeats 1600000 in
/-- Counterexample to C8 as stated: on `rolloverLumpExampleInput` the
lump-sum date shares its calendar month with the 13th payment of the
360-month schedule, yet two records are flagged `isLumpSumMonth` and
`totalLumpSum` is 10, twice the configured amount 5. -/
theorem advanced_lumpSum_double_counted :
    isSameMonth (getPaymentDate rolloverLumpExampleInput.loanStartDate 12
      rolloverLumpExampleInput.emiPaymentDate) ⟨2025, 2, 15⟩ = true ∧
    rolloverLumpExampleInput.lumpSumAmount = some 5 ∧
    rolloverLumpExampleInput.tenureMonths = 360 ∧
    ((calculateAdvancedMortgage rolloverLumpExampleInput).schedule.countP
      (·.isLumpSumMonth)) = 2 ∧
    (calculateAdvancedMortgage rolloverLumpExampleInput).totalLumpSum = 10 := by
  refine ⟨by decide, rfl, rfl, ?_⟩
  norm_num [calculateAdvancedMortgage, advGo_succ, advGo_stop, calculateEMI,
    getMonthlyRate, getPaymentDate, addMonths, jsDateOfYMD, rollDaysAux,
    daysInMonth, isLeapYear, selectRate, extraHit, lumpHit, isSameMonth, dateLe,
    dateKey, List.countP_cons, rolloverLumpExampleInput]

/-- Example input where the end-of-loan clamp truncates the applied lump
sum: a 100-unit lump sum lands on a 9-unit remaining balance. -/
def clampedLumpExampleInput : AdvancedMortgageInput where
  loanAmount := 10
  annualRate := 0
  tenureMonths := 10
  emiPaymentDate := 15
  loanStartDate := ⟨2024, 0, 15⟩
  hasFixedRatePeriod := false
  fixedRateMonths := none
  fixedRate := none
  variableRate := none
  fixedRateEndDate := none
  hasLumpSum := true
  lumpSumAmount := some 100
  lumpSumDate := some ⟨2024, 1, 1⟩
  hasExtraPayments := false
  extraPaymentAmount := none
  extraPaymentStartDate := none
  extraPaymentEndDate := none

/-- Claim C10: the totals `totalLumpSum` and `totalExtraPayments` always accumulate the
full configured amount once per flagged period, regardless of the
end-of-loan clamp on the principal actually applied; consequently, on
`clampedLumpExampleInput` the reported `totalLumpSum` (100) exceeds the
total principal ever paid (10, the whole loan). -/
theorem advanced_totals_accumulate_full_amounts :
    (∀ inp : AdvancedMortgageInput,
      (calculateAdvancedMortgage inp).totalLumpSum =
        inp.lumpSumAmount.getD 0 *
          ((calculateAdvancedMortgage inp).schedule.countP (·.isLumpSumMonth)) ∧
      (calculateAdvancedMortgage inp).totalExtraPayments =
        inp.extraPaymentAmount.getD 0 *
          ((calculateAdvancedMortgage inp).schedule.countP (·.isExtraPaymentMonth))) ∧
    (calculateAdvancedMortgage clampedLumpExampleInput).totalLumpSum = 100 ∧
    ((calculateAdvancedMortgage clampedLumpExampleInput).schedule.map
      (·.principalPayment)).sum = 10 ∧
    ((calculateAdvancedMortgage clampedLumpExampleInput).schedule.map
      (·.principalPayment)).sum <
      (calculateAdvancedMortgage clampedLumpExampleInput).totalLumpSum := by
  have hconcrete :
      (calculateAdvancedMortgage clampedLumpExampleInput).totalLumpSum = 100 ∧
      ((calculateAdvancedMortgage clampedLumpExampleInput).schedule.map
        (·.principalPayment)).sum = 10 := by
    norm_num [calculateAdvancedMortgage, advGo_succ, advGo_stop, calculateEMI,
      getMonthlyRate, getPaymentDate, addMonths, jsDateOfYMD, rollDaysAux,
      daysInMonth, isLeapYear, selectRate, extraHit, lumpHit, isSameMonth, dateLe,
      dateKey, clampedLumpExampleInput]
  refine ⟨?_, hconcrete.1, hconcrete.2, ?_⟩
  · intro inp
    constructor
    · rw [calcAdv_totalLumpSum, advGo_lump_total, ← calcAdv_schedule]
      norm_num
    · rw [calcAdv_totalExtraPayments, advGo_extra_total, ← calcAdv_schedule]
      norm_num
  · rw [hconcrete.1, hconcrete.2]
    norm_num
